import Mathlib

set_option maxRecDepth 20000

/-! Shallow embedding of the access-lens core: the heuristic metric engine
(src/lib/metrics.ts), the recommendation synthesizer (src/lib/llm-analysis.ts),
the visual analysis adapter (src/lib/greenpt.ts) and the API route handlers
(src/app/api/metrics/route.ts, src/app/api/ingest/route.ts).

HTML strings are modelled as lists of characters.  Each JavaScript regular
expression used by the source is modelled as an explicit left-to-right,
leftmost-match, non-overlapping scanner: at every position the scanner either
recognises a match (consuming the number of characters the regex engine
would consume there) or advances by one character, exactly as the JS
`String.prototype.match` global scan does.  All scanners are structurally
recursive; a pending-skip counter replays the characters a match consumed. -/

/-- Whitespace class of the JS regexes `\s` as far as this code exercises it. -/
def isWs (c : Char) : Bool :=
  c = ' ' || c = '\t' || c = '\n' || c = '\r' || c = '\x0b' || c = '\x0c'

/-- Case-insensitive literal test: `pat` (given in lowercase) heads `l`. -/
def ciStarts : List Char → List Char → Bool
  | [], _ => true
  | _ :: _, [] => false
  | p :: ps, c :: cs => p = c.toLower && ciStarts ps cs

/-- Coerce an optional HTML string; JS `html ? e(html) : z` yields the
zero value both for `undefined` and for the empty string, and every scan
below returns its zero value on `[]`, so only `none` needs flattening. -/
def rawOf : Option (List Char) → List Char
  | none => []
  | some l => l

/-- JS string truthiness: non-empty and present. -/
def jsTruthyStr : Option (List Char) → Bool
  | some (_ :: _) => true
  | _ => false

/-- Counting scan.  A step function reports how many characters (at least 1) a
match starting at the head of the remaining input consumes, or `none`.  The
first argument replays characters consumed by a previous match. -/
def scanCountAux (step : List Char → Option Nat) : Nat → List Char → Nat
  | _, [] => 0
  | k + 1, _ :: rest => scanCountAux step k rest
  | 0, c :: rest =>
    match step (c :: rest) with
    | some m => 1 + scanCountAux step (m - 1) rest
    | none => scanCountAux step 0 rest

def scanCount (step : List Char → Option Nat) (l : List Char) : Nat :=
  scanCountAux step 0 l

/-- Replacement scan: every match is replaced by a single space character,
modelling `String.prototype.replace(re, " ")` with a global regex. -/
def scanReplaceAux (step : List Char → Option Nat) : Nat → List Char → List Char
  | _, [] => []
  | k + 1, _ :: rest => scanReplaceAux step k rest
  | 0, c :: rest =>
    match step (c :: rest) with
    | some m => ' ' :: scanReplaceAux step (m - 1) rest
    | none => c :: scanReplaceAux step 0 rest

/-- Collecting scan: like `scanCountAux` but the step also yields the value of
the match, modelling `String.prototype.match`/`matchAll` result lists. -/
def scanCollectAux {α : Type} (step : List Char → Option (α × Nat)) : Nat → List Char → List α
  | _, [] => []
  | k + 1, _ :: rest => scanCollectAux step k rest
  | 0, c :: rest =>
    match step (c :: rest) with
    | some (a, m) => a :: scanCollectAux step (m - 1) rest
    | none => scanCollectAux step 0 rest

/-- Existence scan, modelling `RegExp.prototype.test`. -/
def scanTest (step : List Char → Option Nat) : List Char → Bool
  | [] => false
  | c :: rest => (step (c :: rest)).isSome || scanTest step rest

/-- Match a single case-insensitive literal (patterns in this file are
non-empty string literals). -/
def litStep (pat : List Char) (l : List Char) : Option Nat :=
  if ciStarts pat l then some pat.length else none

/-- Try case-insensitive literal alternatives in regex order. -/
def altsStep : List (List Char) → List Char → Option Nat
  | [], _ => none
  | p :: ps, l =>
    match litStep p l with
    | some m => some m
    | none => altsStep ps l

/-- Count of matches of a literal alternation, `matchCount(/a|b|../gi, s)`. -/
def countAlts (pats : List (List Char)) (l : List Char) : Nat :=
  scanCount (altsStep pats) l

/-- Length through the first occurrence of character `t`, if any. -/
def findCharLen (t : Char) : List Char → Option Nat
  | [] => none
  | c :: rest => if c = t then some 1 else (findCharLen t rest).map (· + 1)

/-- Length through the first case-insensitive occurrence of `pat`, if any. -/
def findLitLen (pat : List Char) : List Char → Option Nat
  | [] => none
  | c :: rest =>
    if ciStarts pat (c :: rest) then some pat.length
    else (findLitLen pat rest).map (· + 1)

/-- Length of the leading run of characters whose lowercase form is `t`. -/
def leadingCount (t : Char) : List Char → Nat
  | [] => 0
  | c :: rest => if c.toLower = t then leadingCount t rest + 1 else 0

/-- Length of the leading whitespace run (the `\s*` pieces). -/
def wsRunLen : List Char → Nat
  | [] => 0
  | c :: rest => if isWs c then wsRunLen rest + 1 else 0

/-- Step for the lazy block regexes `<script[\s\S]*?<\/script>` and the style
analogue: the opening literal followed anywhere later by the closing literal,
consuming through the first close. -/
def blockStep (opn cls : List Char) (l : List Char) : Option Nat :=
  if ciStarts opn l then (findLitLen cls (l.drop opn.length)).map (opn.length + ·)
  else none

def stripScripts (l : List Char) : List Char :=
  scanReplaceAux (blockStep "<script".data "</script>".data) 0 l

def stripStyles (l : List Char) : List Char :=
  scanReplaceAux (blockStep "<style".data "</style>".data) 0 l

/-- Step for `<[^>]+>`: a `<`, at least one non-`>` character, then the first
following `>`. -/
def tagStep : List Char → Option Nat
  | c :: d :: rest =>
    if c = '<' then
      if d = '>' then none else (findCharLen '>' (d :: rest)).map (· + 1)
    else none
  | _ => none

def stripAngleTags (l : List Char) : List Char :=
  scanReplaceAux tagStep 0 l

/-- Step matching a maximal whitespace run, so replacement by a single space
models `.replace(/\s+/g, " ")`. -/
def wsStep (l : List Char) : Option Nat :=
  match l with
  | c :: _ => if isWs c then some (wsRunLen l) else none
  | [] => none

def collapseWs (l : List Char) : List Char :=
  scanReplaceAux wsStep 0 l

def ltrim (l : List Char) : List Char := l.dropWhile isWs

def rtrim (l : List Char) : List Char := (l.reverse.dropWhile isWs).reverse

def trimWs (l : List Char) : List Char := ltrim (rtrim l)

/-- stripTags from metrics.ts: drop script blocks, style blocks and remaining
tags (each replaced by a space), collapse whitespace runs and trim; an absent
input yields the empty string. -/
def stripTags (html : Option (List Char)) : List Char :=
  trimWs (collapseWs (stripAngleTags (stripStyles (stripScripts (rawOf html)))))

/-- Number of maximal whitespace runs; the flag records being inside a run. -/
def wsRunsAux : Bool → List Char → Nat
  | _, [] => 0
  | inRun, c :: rest =>
    if isWs c then (if inRun then 0 else 1) + wsRunsAux true rest
    else wsRunsAux false rest

/-- getWordCount from metrics.ts: `text ? text.split(/\s+/).length : 0`.
A split on `\s+` produces one field more than the number of whitespace runs. -/
def getWordCount (text : List Char) : Nat :=
  if text = [] then 0 else wsRunsAux false text + 1

/-- getSentenceCount from metrics.ts: `text.match(/[.!?]/g)?.length ?? 1`. -/
def getSentenceCount (text : List Char) : Nat :=
  let n := (text.filter (fun c => c = '.' || c = '!' || c = '?')).length
  if n = 0 then 1 else n

/-- Step for `<h[1-6][^>]*>`. -/
def headingStep : List Char → Option Nat
  | '<' :: h :: d :: rest =>
    if h.toLower = 'h' ∧ '1' ≤ d ∧ d ≤ '6' then (findCharLen '>' rest).map (· + 3)
    else none
  | _ => none

def headingsCount (l : List Char) : Nat := scanCount headingStep l

def paragraphsCount (l : List Char) : Nat := countAlts ["<p".data] l

/-- JS `\w` word characters, for the `\b` boundary in `text-(xs|sm)\b`. -/
def isWordChar (c : Char) : Bool := c.isAlpha || c.isDigit || c = '_'

/-- Step for `text-(xs|sm)\b`. -/
def textXsSmStep (l : List Char) : Option Nat :=
  match altsStep ["text-xs".data, "text-sm".data] l with
  | some m =>
    match l.drop m with
    | [] => some m
    | c :: _ => if isWordChar c then none else some m
  | none => none

/-- Step for `font-size:\s*(1[0-3]px|14px)`. -/
def fontSizeSmallStep (l : List Char) : Option Nat :=
  if ciStarts "font-size:".data l then
    let k := wsRunLen (l.drop 10)
    match l.drop (10 + k) with
    | '1' :: d :: p :: x :: _ =>
      if (('0' ≤ d ∧ d ≤ '3') ∨ d = '4') ∧ p.toLower = 'p' ∧ x.toLower = 'x' then
        some (10 + k + 4)
      else none
    | _ => none
  else none

def smallTextHitsCount (l : List Char) : Nat :=
  scanCount textXsSmStep l + scanCount fontSizeSmallStep l

/-- Step for
`text-(slate|gray|neutral)-(3\d0|4\d0)|#9\d\d|#aaa|rgba\((?:255,){2}255,0\.[1-6]\)`,
alternatives tried in regex order. -/
def lowContrastStep (l : List Char) : Option Nat :=
  match (if ciStarts "text-".data l then
           match altsStep ["slate".data, "gray".data, "neutral".data] (l.drop 5) with
           | some m =>
             match l.drop (5 + m) with
             | '-' :: a :: b :: c :: _ =>
               if (a = '3' ∨ a = '4') ∧ b.isDigit ∧ c = '0' then some (5 + m + 4) else none
             | _ => none
           | none => none
         else none) with
  | some m => some m
  | none =>
    match (match l with
           | '#' :: '9' :: a :: b :: _ => if a.isDigit ∧ b.isDigit then some 4 else none
           | _ => none) with
    | some m => some m
    | none =>
      match (if ciStarts "#aaa".data l then some 4 else none) with
      | some m => some m
      | none =>
        if ciStarts "rgba(255,255,255,0.".data l then
          match l.drop 19 with
          | d :: ')' :: _ => if '1' ≤ d ∧ d ≤ '6' then some 21 else none
          | _ => none
        else none

def lowContrastHitsCount (l : List Char) : Nat := scanCount lowContrastStep l

/-- Step for `leading-(none|tight|snug)|line-height:\s*1\.[0-3]`. -/
def tightStep (l : List Char) : Option Nat :=
  match (if ciStarts "leading-".data l then
           (altsStep ["none".data, "tight".data, "snug".data] (l.drop 8)).map (8 + ·)
         else none) with
  | some m => some m
  | none =>
    if ciStarts "line-height:".data l then
      let k := wsRunLen (l.drop 12)
      match l.drop (12 + k) with
      | '1' :: '.' :: d :: _ => if '0' ≤ d ∧ d ≤ '3' then some (12 + k + 3) else none
      | _ => none
    else none

def tightLineHeightsCount (l : List Char) : Nat := scanCount tightStep l

def lightWeightHitsCount (l : List Char) : Nat :=
  countAlts ["font-thin".data, "font-extralight".data, "font-light".data] l

/-- Collecting step for `text-(?:xs|sm|base|lg|xl|2xl|3xl|4xl|\[[^\]]+\])`;
the value is the matched text itself (matches feed a JS `Set`). -/
def fontTokenStep (l : List Char) : Option (List Char × Nat) :=
  if ciStarts "text-".data l then
    match altsStep ["xs".data, "sm".data, "base".data, "lg".data, "xl".data,
                    "2xl".data, "3xl".data, "4xl".data] (l.drop 5) with
    | some m => some (l.take (5 + m), 5 + m)
    | none =>
      match l.drop 5 with
      | '[' :: c :: rest =>
        if c = ']' then none
        else (findCharLen ']' (c :: rest)).map (fun k => (l.take (5 + 1 + k), 5 + 1 + k))
      | _ => none
  else none

def fontSizeTokensOf (l : List Char) : List (List Char) :=
  scanCollectAux fontTokenStep 0 l

def digitsLen : List Char → Nat
  | [] => 0
  | c :: rest => if c.isDigit then digitsLen rest + 1 else 0

def digitsValAux : Nat → List Char → Nat
  | acc, [] => acc
  | acc, c :: rest => if c.isDigit then digitsValAux (acc * 10 + (c.toNat - 48)) rest else acc

/-- Collecting step for `max-w-\[(\d+)(rem|px)\]`; the value is the numeric
capture and whether the unit capture was `rem`. -/
def widthStep (l : List Char) : Option ((Nat × Bool) × Nat) :=
  if ciStarts "max-w-[".data l then
    let body := l.drop 7
    let k := digitsLen body
    if k = 0 then none
    else
      let n := digitsValAux 0 (body.take k)
      match (if ciStarts "rem]".data (body.drop k) then some (true, 4)
             else if ciStarts "px]".data (body.drop k) then some (false, 3) else none) with
      | some (isRem, u) => some ((n, isRem), 7 + k + u)
      | none => none
  else none

def widthMatchesOf (l : List Char) : List (Nat × Bool) :=
  scanCollectAux widthStep 0 l

/-- Step for `max-w-(sm|md|lg|xl|2xl|prose)` (used only with `.test`). -/
def maxWNamedStep (l : List Char) : Option Nat :=
  if ciStarts "max-w-".data l then
    (altsStep ["sm".data, "md".data, "lg".data, "xl".data, "2xl".data, "prose".data]
      (l.drop 6)).map (6 + ·)
  else none

/-- Maximal run of `[a-z0-9-]` characters (case-insensitive). -/
def tagCharRun : List Char → Nat
  | [] => 0
  | c :: rest => if c.isAlpha || c.isDigit || c = '-' then tagCharRun rest + 1 else 0

/-- Collecting step for `<([a-z0-9-]+)`; the value is the matched text
(including the `<`), as fed to `new Set(tags.map(t => t.toLowerCase()))`. -/
def componentStep (l : List Char) : Option (List Char × Nat) :=
  match l with
  | '<' :: rest =>
    let k := tagCharRun rest
    if k = 0 then none else some (l.take (k + 1), k + 1)
  | _ => none

def componentTokensOf (l : List Char) : List (List Char) :=
  scanCollectAux componentStep 0 l

def interactiveCount (l : List Char) : Nat :=
  countAlts ["<button".data, "<a".data, "<input".data, "<select".data, "<textarea".data] l

def alertWordsCount (l : List Char) : Nat :=
  countAlts ["error".data, "warning".data, "failed".data, "urgent".data, "alert".data] l

/-- Step for `#f{0,2}f{0,2}0{0,2}|red`: at a `#` the greedy counted
repetitions take up to four `f`s then up to two `0`s (possibly none of
either, so a lone `#` already matches); otherwise the literal `red`. -/
def redStep (l : List Char) : Option Nat :=
  match l with
  | [] => none
  | c :: rest =>
    if c = '#' then
      let fs := min 4 (leadingCount 'f' rest)
      let zs := min 2 (leadingCount '0' (rest.drop fs))
      some (1 + fs + zs)
    else if ciStarts "red".data (c :: rest) then some 3
    else none

def redUsageCount (l : List Char) : Nat := scanCount redStep l

def denseInputsCount (l : List Char) : Nat := countAlts ["<input".data] l

def fieldsCount (l : List Char) : Nat :=
  countAlts ["<input".data, "<select".data, "<textarea".data] l

def stepsCount (l : List Char) : Nat :=
  countAlts ["step".data, "progress".data, "breadcrumb".data] l

def supportiveCount (text : List Char) : Nat :=
  countAlts ["thank".data, "welcome".data, "help".data, "support".data,
             "assist".data, "calm".data, "friendly".data] text

def jargonCount (text : List Char) : Nat :=
  countAlts ["synergy".data, "pipeline".data, "kpi".data, "leverage".data,
             "compliance".data, "policy".data] text

/-- JS `Math.round`: halves round toward positive infinity. -/
def jsRound (q : ℚ) : ℤ := Int.floor (q + 1 / 2)

/-- clampScore from metrics.ts: `Math.max(0, Math.min(100, Math.round(value)))`. -/
def clampScore (value : ℚ) : ℤ := max 0 (min 100 (jsRound value))

/-- Model of `Number(q.toFixed(1))` for the non-negative averages stored in
evidence (round to one decimal, halves up). -/
def toFixed1 (q : ℚ) : ℚ := (jsRound (q * 10) : ℚ) / 10

structure TypographySignals where
  words : Nat
  sentences : Nat
  avgWordsPerSentence : ℚ
  headings : Nat
  paragraphs : Nat
  avgWordsPerParagraph : ℚ
  smallTextHits : Nat
  lowContrastHits : Nat
  tightLineHeights : Nat
  lightWeightHits : Nat
  uniqueFontSizes : Nat
  wideBlockRisk : Nat
deriving DecidableEq

/-- analyzeTypography from metrics.ts.  The `Number.isNaN` guard on the width
captures never fires (the capture is `\d+`), so it is not represented. -/
def analyzeTypography (html : Option (List Char)) : TypographySignals :=
  let raw := rawOf html
  let text := stripTags html
  let words := getWordCount text
  let sentences := getSentenceCount text
  let avgWordsPerSentence : ℚ := if sentences ≠ 0 then (words : ℚ) / (sentences : ℚ) else (words : ℚ)
  let headings := headingsCount raw
  let paragraphs := paragraphsCount raw
  let avgWordsPerParagraph : ℚ := if paragraphs ≠ 0 then (words : ℚ) / (paragraphs : ℚ) else (words : ℚ)
  let widthMatches := widthMatchesOf raw
  let overlyWideBlocks :=
    (widthMatches.filter (fun wm => if wm.2 then 750 < wm.1 * 16 else 750 < wm.1)).length
  let hasExplicitWidthControl :=
    decide (0 < widthMatches.length) || scanTest maxWNamedStep raw
  let wideBlockRisk :=
    if hasExplicitWidthControl then overlyWideBlocks else if 0 < paragraphs then 1 else 0
  { words, sentences, avgWordsPerSentence, headings, paragraphs, avgWordsPerParagraph,
    smallTextHits := smallTextHitsCount raw,
    lowContrastHits := lowContrastHitsCount raw,
    tightLineHeights := tightLineHeightsCount raw,
    lightWeightHits := lightWeightHitsCount raw,
    uniqueFontSizes := ((fontSizeTokensOf raw).dedup).length,
    wideBlockRisk }

structure ReadabilityEvidence where
  words : Nat
  sentences : Nat
  avgWordsPerSentence : ℚ
  headings : Nat
  smallTextHits : Nat
  lowContrastHits : Nat
  tightLineHeights : Nat
  lightWeightHits : Nat
  wideBlockRisk : Nat
deriving DecidableEq

structure CognitiveEvidence where
  uniqueComponents : Nat
  interactiveElements : Nat
  uniqueFontSizes : Nat
  avgWordsPerParagraph : ℚ
deriving DecidableEq

structure StressEvidence where
  alertWords : Nat
  redUsage : Nat
  denseInputs : Nat
deriving DecidableEq

structure MemoryEvidence where
  fields : Nat
  stepIndicators : Nat
deriving DecidableEq

structure EmpathyEvidence where
  supportivePhrases : Nat
  jargonHits : Nat
  calmTypographyBonus : Bool
deriving DecidableEq

/-- Per-metric evidence payload (a tagged record in the TS union). -/
inductive Evidence where
  | readability (e : ReadabilityEvidence)
  | cognitive (e : CognitiveEvidence)
  | stress (e : StressEvidence)
  | memory (e : MemoryEvidence)
  | empathy (e : EmpathyEvidence)
deriving DecidableEq

structure MetricResult where
  id : String
  label : String
  score : ℤ
  summary : String
  recommendations : List String
  evidence : Evidence
deriving DecidableEq

/-- calcReadability from metrics.ts. -/
def calcReadability (html : Option (List Char)) (typography : Option TypographySignals) :
    MetricResult :=
  let signals := typography.getD (analyzeTypography html)
  let score : ℚ := 100
  let score := if 20 < signals.avgWordsPerSentence then
    score - (signals.avgWordsPerSentence - 20) * 2 else score
  let score := if signals.headings = 0 then score - 15 else score
  let score := if signals.words < 50 then score - 10 else score
  let score := if signals.smallTextHits ≠ 0 then
    score - (signals.smallTextHits : ℚ) * 4 else score
  let score := if signals.lowContrastHits ≠ 0 then
    score - min 20 ((signals.lowContrastHits : ℚ) * 4) else score
  let score := if signals.tightLineHeights ≠ 0 then
    score - (signals.tightLineHeights : ℚ) * 3 else score
  let score := if signals.lightWeightHits ≠ 0 then
    score - (signals.lightWeightHits : ℚ) * 4 else score
  let score := if signals.wideBlockRisk ≠ 0 then
    score - (signals.wideBlockRisk : ℚ) * 6 else score
  let summary := if 20 < signals.avgWordsPerSentence then
    "Dense copy detected — consider shorter sentences."
    else "Sentence cadence feels scannable."
  let recommendations :=
    (if 20 < signals.avgWordsPerSentence then
      ["Break long sentences into 2–3 clauses for easier scanning."] else []) ++
    (if signals.headings < 2 then
      ["Add hierarchy with headings or section labels."] else []) ++
    (if signals.words < 80 then
      ["Ensure enough descriptive text to set context for the screen."] else []) ++
    (if signals.smallTextHits ≠ 0 then
      ["Keep body copy at 16–18px to avoid penalising readers."] else []) ++
    (if signals.lowContrastHits ≠ 0 then
      ["Boost color contrast to meet WCAG AA (4.5:1 for body text)."] else []) ++
    (if signals.tightLineHeights ≠ 0 then
      ["Use 1.5–1.7 line height for multi-line paragraphs."] else []) ++
    (if signals.wideBlockRisk ≠ 0 then
      ["Constrain long paragraphs to ~70 characters (≈44rem) for easier tracking."] else []) ++
    (if signals.lightWeightHits ≠ 0 then
      ["Use regular, medium, or semibold weights for core text."] else [])
  { id := "readability", label := "Readability", score := clampScore score, summary,
    recommendations,
    evidence := Evidence.readability {
      words := signals.words, sentences := signals.sentences,
      avgWordsPerSentence := toFixed1 signals.avgWordsPerSentence,
      headings := signals.headings, smallTextHits := signals.smallTextHits,
      lowContrastHits := signals.lowContrastHits,
      tightLineHeights := signals.tightLineHeights,
      lightWeightHits := signals.lightWeightHits,
      wideBlockRisk := signals.wideBlockRisk } }

/-- calcCognitiveLoad from metrics.ts. -/
def calcCognitiveLoad (html : Option (List Char)) (typography : Option TypographySignals) :
    MetricResult :=
  let signals := typography.getD (analyzeTypography html)
  let raw := rawOf html
  let uniqueComponents := (((componentTokensOf raw).map (fun t => t.map Char.toLower)).dedup).length
  let interactiveElements := interactiveCount raw
  let score : ℚ := 90 - (uniqueComponents : ℚ)
  let score := if 8 < interactiveElements then
    score - ((interactiveElements : ℚ) - 8) * 2 else score
  let score := if 6 < signals.uniqueFontSizes then
    score - ((signals.uniqueFontSizes : ℚ) - 6) * 2 else score
  let score := if 80 < signals.avgWordsPerParagraph then
    score - min 20 ((signals.avgWordsPerParagraph - 80) * 0.5) else score
  let summary := if 8 < interactiveElements then
    "Many simultaneous actions — consider progressive disclosure."
    else "Interaction surface looks manageable."
  let recommendations :=
    (if 30 < uniqueComponents then
      ["Consolidate visual styles to reduce decision fatigue."] else []) ++
    (if 8 < interactiveElements then
      ["Sequence actions into smaller groups or steps."] else []) ++
    (if 6 < signals.uniqueFontSizes then
      ["Limit the number of simultaneous font sizes to keep typography calm."] else []) ++
    (if 80 < signals.avgWordsPerParagraph then
      ["Add spacing or bullet lists to avoid dense text walls."] else [])
  { id := "cognitive-load", label := "Cognitive Load", score := clampScore score, summary,
    recommendations,
    evidence := Evidence.cognitive {
      uniqueComponents, interactiveElements,
      uniqueFontSizes := signals.uniqueFontSizes,
      avgWordsPerParagraph := toFixed1 signals.avgWordsPerParagraph } }

/-- calcStressPoints from metrics.ts. -/
def calcStressPoints (html : Option (List Char)) : MetricResult :=
  let raw := rawOf html
  let alertWords := alertWordsCount raw
  let redUsage := redUsageCount raw
  let denseInputs := denseInputsCount raw
  let score : ℚ := 85
  let score := score - (alertWords : ℚ) * 5
  let score := score - (redUsage : ℚ) * 3
  let score := if 6 < denseInputs then score - ((denseInputs : ℚ) - 6) * 2 else score
  let summary := if 0 < alertWords then
    "Warning language visible — ensure context and reassurance."
    else "No obvious stress triggers detected."
  let recommendations :=
    (if 0 < alertWords then ["Pair alerts with next-step guidance, not just warnings."] else []) ++
    (if 3 < redUsage then ["Use calmer tones for emphasis unless truly critical."] else []) ++
    (if 6 < denseInputs then ["Group related inputs and add breathing space."] else [])
  { id := "stress", label := "User Stress", score := clampScore score, summary,
    recommendations,
    evidence := Evidence.stress { alertWords, redUsage, denseInputs } }

/-- calcMemory from metrics.ts. -/
def calcMemory (html : Option (List Char)) : MetricResult :=
  let raw := rawOf html
  let fields := fieldsCount raw
  let steps := stepsCount raw
  let score : ℚ := 95
  let score := if 6 < fields then score - ((fields : ℚ) - 6) * 4 else score
  let score := if steps = 0 ∧ 4 < fields then score - 10 else score
  let summary := if 6 < fields then
    "High working-memory burden from many simultaneous inputs."
    else "Form load feels within working-memory limits."
  let recommendations :=
    (if 6 < fields then ["Stage questions or use progressive disclosure."] else []) ++
    (if steps = 0 then ["Show progress or chunk tasks so users understand sequence."] else [])
  { id := "memory", label := "Memory Load", score := clampScore score, summary,
    recommendations,
    evidence := Evidence.memory { fields, stepIndicators := steps } }

/-- calcEmpathy from metrics.ts. -/
def calcEmpathy (html : Option (List Char)) (typography : Option TypographySignals) :
    MetricResult :=
  let text := stripTags html
  let supportive := supportiveCount text
  let jargon := jargonCount text
  let signals := typography.getD (analyzeTypography html)
  let score : ℚ := 70 + (supportive : ℚ) * 5 - (jargon : ℚ) * 4
  let score := if signals.smallTextHits = 0 ∧ signals.lowContrastHits = 0 ∧
      signals.tightLineHeights = 0 then score + 8 else score
  let score := if signals.uniqueFontSizes ≤ 5 ∧ signals.avgWordsPerParagraph ≤ 80 then
    score + 5 else score
  let summary := if jargon < supportive then
    "Language leans helpful and human."
    else "Tone feels utilitarian — layer in more human cues."
  let recommendations :=
    (if supportive < 2 then ["Narrate intent with plain, supportive language."] else []) ++
    (if 0 < jargon then ["Swap internal jargon for user-facing words."] else []) ++
    (if 0 < signals.smallTextHits ∨ 0 < signals.lowContrastHits then
      ["Keep typography calm (16px+, strong contrast) so helpful content feels trustworthy."]
      else [])
  { id := "empathy", label := "Empathy Alignment", score := clampScore score, summary,
    recommendations,
    evidence := Evidence.empathy {
      supportivePhrases := supportive, jargonHits := jargon,
      calmTypographyBonus :=
        decide (signals.smallTextHits = 0 ∧ signals.lowContrastHits = 0) } }

/-- evaluateAllMetrics from metrics.ts: the typography signals are computed
once and passed to readability, cognitive load and empathy. -/
def evaluateAllMetrics (html : Option (List Char)) : List MetricResult :=
  let typographySignals := analyzeTypography html
  [calcReadability html (some typographySignals),
   calcCognitiveLoad html (some typographySignals),
   calcStressPoints html,
   calcMemory html,
   calcEmpathy html (some typographySignals)]

/-! Embedding of src/lib/llm-analysis.ts.  JS floating-point numbers only
reach this module through `reduce(...)/length` and `Math.round`, where the
single non-rational outcome the code can produce is `0/0 = NaN` for an empty
metrics list; `JSNum` models exactly that arithmetic. -/

inductive JSNum where
  | num (q : ℚ)
  | nan
  | posInf
  | negInf
deriving DecidableEq

/-- JS division as used in `generateFallbackAnalysis`. -/
def jsDiv (a b : ℚ) : JSNum :=
  if b = 0 then (if a = 0 then JSNum.nan else if 0 < a then JSNum.posInf else JSNum.negInf)
  else JSNum.num (a / b)

/-- JS `Math.round` lifted to `JSNum` (`Math.round(NaN)` is `NaN`). -/
def jsRoundNum : JSNum → JSNum
  | JSNum.num q => JSNum.num (jsRound q : ℚ)
  | JSNum.nan => JSNum.nan
  | JSNum.posInf => JSNum.posInf
  | JSNum.negInf => JSNum.negInf

/-- Rendering of a `JSNum` in a template literal (only integers, `NaN` and
the infinities occur here). -/
def jsNumToString : JSNum → String
  | JSNum.num q => if q.den = 1 then toString q.num else toString q
  | JSNum.nan => "NaN"
  | JSNum.posInf => "Infinity"
  | JSNum.negInf => "-Infinity"

structure ContrastData where
  score : Option ℚ := none
  issues : Option (List String) := none
deriving DecidableEq

structure LayoutData where
  complexity : Option ℚ := none
  focusableElements : Option ℚ := none
  visualHierarchy : Option ℚ := none
deriving DecidableEq

structure TextExtractionData where
  text : Option String := none
  headings : Option (List String) := none
  links : Option (List String) := none
deriving DecidableEq

/-- GreenptAnalysisResponse / GreenptData: every field optional, absent by
default, mirroring the TS object literals. -/
structure GreenptData where
  contrast : Option ContrastData := none
  textExtraction : Option TextExtractionData := none
  layout : Option LayoutData := none
  overallScore : Option ℚ := none
  errors : Option (List String) := none
deriving DecidableEq

structure LLMAnalysisRequest where
  metrics : List MetricResult
  greenpt : Option GreenptData := none
  html : Option (List Char) := none
  screenshotDataUrl : Option String := none

structure TopIssue where
  metric : String
  issue : String
  severity : String
deriving DecidableEq

structure Recommendation where
  title : String
  description : String
  impact : String
  effort : String
deriving DecidableEq

structure LLMAnalysisResponse where
  overallScore : JSNum
  topIssues : List TopIssue
  recommendations : List Recommendation
  summary : String
deriving DecidableEq

/-- generateFallbackAnalysis from llm-analysis.ts.  `Array.prototype.sort` is
stable (ES2019) with comparator `a.score - b.score`, modelled by a stable
merge sort on `score ≤ score`. -/
def generateFallbackAnalysis (input : LLMAnalysisRequest) : LLMAnalysisResponse :=
  let avgScore : JSNum :=
    jsRoundNum (jsDiv ((input.metrics.foldl (fun sum m => sum + m.score) (0 : ℤ) : ℤ) : ℚ)
      (input.metrics.length : ℚ))
  let allRecommendations :=
    input.metrics.flatMap (fun m =>
      m.recommendations.map (fun rec =>
        { title := m.label ++ " Improvement",
          description := rec,
          impact := if m.score < 50 then "high" else if m.score < 70 then "medium" else "low",
          effort := "medium" : Recommendation }))
  let topIssues :=
    (((input.metrics.filter (fun m => m.score < 70)).mergeSort
        (fun a b => decide (a.score ≤ b.score))).take 3).map
      (fun m => { metric := m.label, issue := m.summary,
                  severity := if m.score < (50 : ℤ) then "high" else "medium" : TopIssue })
  { overallScore := avgScore,
    topIssues,
    recommendations := allRecommendations.take 8,
    summary := "Overall accessibility score: " ++ jsNumToString avgScore ++ "/100. " ++
      toString topIssues.length ++ " key areas need attention." }

/-- generateLLMAnalysis from llm-analysis.ts.  The credential is the
`GREENPT_API_KEY` environment value; `remote` abstracts the outcome of the
fetch/parse of the primary path (an exception or a parsed response), which is
never consulted when the credential is absent. -/
def generateLLMAnalysis (apiKey : Option String) (remote : Except Unit LLMAnalysisResponse)
    (input : LLMAnalysisRequest) : LLMAnalysisResponse :=
  match apiKey with
  | none => generateFallbackAnalysis input
  | some _ =>
    match remote with
    | Except.ok r => r
    | Except.error _ => generateFallbackAnalysis input

/-! Embedding of src/lib/greenpt.ts.  The network call is abstracted as an
outcome: either a thrown transport exception or an HTTP response carrying a
status, the `ok` flag, and the result of `response.json()` composed with the
optional-chained content extraction (`data.choices?.[0]?.message?.content ||
""`), which itself can throw only through `response.json()`.  The tail of the
success path (code-fence stripping, `JSON.parse` in its own try/catch, and the
last-resort regex score extraction) is total — every throwing operation inside
it is individually caught — and is abstracted as the function `parseTail`. -/

structure HttpResponse where
  status : Nat
  ok : Bool
  content : Except Unit String

/-- The body of the `try` block of `analyzeWithGreenpt`, as an exception-
transparent computation. -/
def greenptTry (fetchOutcome : Except Unit HttpResponse)
    (parseTail : String → GreenptData) : Except Unit GreenptData := do
  let response ← fetchOutcome
  if !response.ok then
    return { errors := some ["Greenpt API returned " ++ toString response.status] }
  let content ← response.content
  return parseTail content

/-- analyzeWithGreenpt from greenpt.ts: without a credential it returns the
empty result before the `try`; otherwise every exception escaping the body is
converted to the single generic errors entry. -/
def analyzeWithGreenpt (apiKey : Option String) (fetchOutcome : Except Unit HttpResponse)
    (parseTail : String → GreenptData) : GreenptData :=
  match apiKey with
  | none => {}
  | some _ =>
    match greenptTry fetchOutcome parseTail with
    | Except.ok v => v
    | Except.error _ => { errors := some ["Greenpt service unavailable"] }

/-! Embedding of the API route handlers. -/

inductive RouteResponse where
  | ok (metrics : List MetricResult)
  | badRequest (error : String)
  | serverError (error : String)
deriving DecidableEq

namespace MetricsRoute

/-- POST of src/app/api/metrics/route.ts: `if (!html || html.length < 20)`
rejects with status 400, otherwise the five heuristic metrics are returned.
The JSON body parse and the catch-all 500 sit outside the modelled logic. -/
def POST (html : Option (List Char)) : RouteResponse :=
  if jsTruthyStr html = false ∨ (rawOf html).length < 20 then
    RouteResponse.badRequest "Insufficient HTML supplied for heuristic scoring."
  else RouteResponse.ok (evaluateAllMetrics html)

end MetricsRoute

namespace AnalyzeRoute

/-- The heuristic-metrics stage of POST in the full-analysis route:
`const heuristicMetrics = html ? evaluateAllMetrics(html) : [];`. -/
def heuristicMetrics (html : Option (List Char)) : List MetricResult :=
  if jsTruthyStr html then evaluateAllMetrics html else []

end AnalyzeRoute

/-- Number of occurrences of the character `#`. -/
def countHash (l : List Char) : Nat := (l.filter (fun c => c = '#')).length

/-- Step for the literal `red` alone (case-insensitive). -/
def redOnlyStep (l : List Char) : Option Nat :=
  if ciStarts "red".data l then some 3 else none

/-- Number of (leftmost, non-overlapping) case-insensitive occurrences of the
substring `red`; since no proper suffix of `red` is one of its prefixes these
are exactly all its occurrences. -/
def countRed (l : List Char) : Nat := scanCount redOnlyStep l

/-- Every `<` in the list is followed (strictly later) by some `>`. -/
def ltClosed : List Char → Bool
  | [] => true
  | c :: rest => (c ≠ '<' || rest.contains '>') && ltClosed rest

/-- Some position of `l` starts with the case-insensitive literal `pat`. -/
def hasOccCI (pat : List Char) : List Char → Bool
  | [] => false
  | c :: rest => ciStarts pat (c :: rest) || hasOccCI pat rest

/-- The `words` entry of a readability evidence record. -/
def evidenceWords : Evidence → Option Nat
  | Evidence.readability e => some e.words
  | _ => none

/-- The `avgWordsPerParagraph` entry of a cognitive-load evidence record. -/
def evidenceAvgWpp : Evidence → Option ℚ
  | Evidence.cognitive e => some e.avgWordsPerParagraph
  | _ => none

/-- The `calmTypographyBonus` entry of an empathy evidence record. -/
def evidenceCalmBonus : Evidence → Option Bool
  | Evidence.empathy e => some e.calmTypographyBonus
  | _ => none

/-- Sample input: a three-field form followed by 52 words in 13 sentences. -/
def sampleFormHtml : String :=
  "<input><input><input>" ++ String.join (List.replicate 13 "alpha beta gamma delta. ")

/-- The markup appended in the shared-signal consistency scenario. -/
def buttonSuffix : List Char := "<button></button>".data

/-! General lemmas about the score clamp and rounding. -/

theorem clampScore_nonneg (v : ℚ) : 0 ≤ clampScore v := le_max_left 0 _

theorem clampScore_le_hundred (v : ℚ) : clampScore v ≤ 100 :=
  max_le (by norm_num) (min_le_left _ _)

theorem jsRound_intCast (n : ℤ) : jsRound ((n : ℚ)) = n := by
  unfold jsRound
  rw [Int.floor_eq_iff]
  constructor
  · linarith
  · linarith

theorem clampScore_intCast (n : ℤ) (h0 : 0 ≤ n) (h1 : n ≤ 100) :
    clampScore ((n : ℚ)) = n := by
  unfold clampScore
  rw [jsRound_intCast, min_eq_right h1, max_eq_right h0]

theorem jsRound_nonneg (q : ℚ) (h : 0 ≤ q) : 0 ≤ jsRound q := by
  unfold jsRound
  exact Int.le_floor.mpr (by push_cast; linarith)

theorem jsRound_le_hundred (q : ℚ) (h : q ≤ 100) : jsRound q ≤ 100 := by
  unfold jsRound
  have : jsRound q < 101 := Int.floor_lt.mpr (by push_cast; linarith)
  unfold jsRound at this
  omega

/-- Sequential conditional subtraction as used by the score accumulators. -/
theorem ite_sub_right (c : Prop) [Decidable c] (x t : ℚ) :
    (if c then x - t else x) = x - (if c then t else 0) := by
  split <;> simp

theorem ite_guard_mul (n : ℕ) (k : ℚ) :
    (if n ≠ 0 then (n : ℚ) * k else 0) = (n : ℚ) * k := by
  split <;> simp_all

theorem ite_guard_min (n : ℕ) :
    (if n ≠ 0 then min 20 ((n : ℚ) * 4) else 0) = min 20 ((n : ℚ) * 4) := by
  split <;> simp_all

/-- Every metric result produced by the engine is a clamped score. -/
theorem metricScore_bounds (html : Option (List Char)) (m : MetricResult)
    (hm : m ∈ evaluateAllMetrics html) : 0 ≤ m.score ∧ m.score ≤ 100 := by
  simp only [evaluateAllMetrics, List.mem_cons, List.not_mem_nil, or_false] at hm
  rcases hm with rfl | rfl | rfl | rfl | rfl <;>
    exact ⟨clampScore_nonneg _, clampScore_le_hundred _⟩

/-- Closed form of the readability score over arbitrary signals. -/
theorem calcReadability_score_closed (html : Option (List Char)) (S : TypographySignals) :
    (calcReadability html (some S)).score =
      clampScore (100
        - (if 20 < S.avgWordsPerSentence then (S.avgWordsPerSentence - 20) * 2 else 0)
        - (if S.headings = 0 then 15 else 0)
        - (if S.words < 50 then 10 else 0)
        - (S.smallTextHits : ℚ) * 4
        - min 20 ((S.lowContrastHits : ℚ) * 4)
        - (S.tightLineHeights : ℚ) * 3
        - (S.lightWeightHits : ℚ) * 4
        - (S.wideBlockRisk : ℚ) * 6) := by
  simp only [calcReadability, Option.getD_some]
  simp only [ite_sub_right, ite_guard_mul, ite_guard_min]

/-- Closed form of the stress score. -/
theorem calcStressPoints_score_closed (html : Option (List Char)) :
    (calcStressPoints html).score =
      clampScore (85 - (alertWordsCount (rawOf html) : ℚ) * 5
        - (redUsageCount (rawOf html) : ℚ) * 3
        - (if 6 < denseInputsCount (rawOf html) then
            ((denseInputsCount (rawOf html) : ℚ) - 6) * 2 else 0)) := by
  simp only [calcStressPoints, ite_sub_right]

/-- Closed form of the memory score. -/
theorem calcMemory_score_closed (html : Option (List Char)) :
    (calcMemory html).score =
      clampScore (95 - (if 6 < fieldsCount (rawOf html) then
          ((fieldsCount (rawOf html) : ℚ) - 6) * 4 else 0)
        - (if stepsCount (rawOf html) = 0 ∧ 4 < fieldsCount (rawOf html) then 10 else 0)) := by
  simp only [calcMemory, ite_sub_right]

/-- The average-words-per-sentence signal, in terms of the word and sentence
counts of the same signals record. -/
theorem analyzeTypography_avgWps (html : Option (List Char)) :
    (analyzeTypography html).avgWordsPerSentence =
      (if (analyzeTypography html).sentences ≠ 0 then
        ((analyzeTypography html).words : ℚ) / ((analyzeTypography html).sentences : ℚ)
       else ((analyzeTypography html).words : ℚ)) := rfl

theorem foldl_score_sum (ms : List MetricResult) (a : ℤ) :
    ms.foldl (fun s m => s + m.score) a = a + (ms.map MetricResult.score).sum := by
  induction ms generalizing a with
  | nil => simp
  | cons m t ih => simp [ih, add_assoc]

theorem int_sum_bounds (l : List ℤ) (h : ∀ x ∈ l, 0 ≤ x ∧ x ≤ 100) :
    0 ≤ l.sum ∧ l.sum ≤ 100 * l.length := by
  induction l with
  | nil => simp
  | cons x t ih =>
    have hx := h x (by simp)
    have ht := ih (fun y hy => h y (by simp [hy]))
    simp only [List.sum_cons, List.length_cons]
    constructor
    · linarith [hx.1, ht.1]
    · push_cast
      linarith [hx.2, ht.2]

/-! Lemmas for the red-usage regex `#f{0,2}f{0,2}0{0,2}|red`. -/

theorem scanCountAux_skip (step : List Char → Option Nat) :
    ∀ (l : List Char) (k : Nat), scanCountAux step k l = scanCountAux step 0 (l.drop k) := by
  intro l
  induction l with
  | nil => intro k; cases k <;> rfl
  | cons c rest ih =>
    intro k
    cases k with
    | zero => rfl
    | succ k => simpa [scanCountAux] using ih k

theorem toLower_hash : Char.toLower '#' = '#' := by decide

theorem ne_hash_of_toLower {c : Char} {t : Char} (h : c.toLower = t) (ht : t ≠ '#') :
    c ≠ '#' := by
  intro hc
  exact ht (by rw [← h, hc, toLower_hash])

theorem countHash_cons_ne (c : Char) (rest : List Char) (hc : c ≠ '#') :
    countHash (c :: rest) = countHash rest := by
  simp [countHash, List.filter_cons, hc]

theorem countHash_cons_hash (rest : List Char) :
    countHash ('#' :: rest) = countHash rest + 1 := by
  simp [countHash, List.filter_cons]

theorem redOnlyStep_cons_ne (c : Char) (rest : List Char) (hc : Char.toLower c ≠ 'r') :
    redOnlyStep (c :: rest) = none := by
  unfold redOnlyStep
  have hfalse : ciStarts "red".data (c :: rest) = false := by
    show ciStarts ('r' :: 'e' :: 'd' :: []) (c :: rest) = false
    unfold ciStarts
    rw [decide_eq_false (show ¬ ('r' = c.toLower) from fun h => hc h.symm), Bool.false_and]
  rw [hfalse]
  rfl

theorem countHash_drop_leading (t : Char) (ht : t ≠ '#') :
    ∀ (n : Nat) (l : List Char), countHash (l.drop (min n (leadingCount t l))) = countHash l := by
  intro n
  induction n with
  | zero => intro l; simp
  | succ n ih =>
    intro l
    cases l with
    | nil => simp
    | cons c rest =>
      by_cases h : c.toLower = t
      · rw [show leadingCount t (c :: rest) = leadingCount t rest + 1 by
            simp [leadingCount, h]]
        rw [Nat.succ_min_succ, List.drop_succ_cons, ih rest,
          countHash_cons_ne c rest (ne_hash_of_toLower h ht)]
      · rw [show leadingCount t (c :: rest) = 0 by simp [leadingCount, h]]
        simp

theorem countRedScan_drop_leading (t : Char) (ht : t ≠ 'r') :
    ∀ (n : Nat) (l : List Char),
      scanCountAux redOnlyStep 0 (l.drop (min n (leadingCount t l))) =
        scanCountAux redOnlyStep 0 l := by
  intro n
  induction n with
  | zero => intro l; simp
  | succ n ih =>
    intro l
    cases l with
    | nil => simp
    | cons c rest =>
      by_cases h : c.toLower = t
      · rw [show leadingCount t (c :: rest) = leadingCount t rest + 1 by
            simp [leadingCount, h]]
        rw [Nat.succ_min_succ, List.drop_succ_cons, ih rest]
        have hne : Char.toLower c ≠ 'r' := by rw [h]; exact ht
        rw [show scanCountAux redOnlyStep 0 (c :: rest) = scanCountAux redOnlyStep 0 rest by
          simp [scanCountAux, redOnlyStep_cons_ne c rest hne]]
      · rw [show leadingCount t (c :: rest) = 0 by simp [leadingCount, h]]
        simp

theorem ciStarts_red_shape (l : List Char) (h : ciStarts "red".data l = true) :
    ∃ c e d rest, l = c :: e :: d :: rest ∧
      c.toLower = 'r' ∧ e.toLower = 'e' ∧ d.toLower = 'd' := by
  match l with
  | [] => exact absurd h (by decide)
  | [c] =>
    exfalso
    revert h
    show ciStarts ('r' :: 'e' :: 'd' :: []) [c] = true → False
    unfold ciStarts
    cases hrc : decide ('r' = c.toLower) <;> simp [ciStarts]
  | [c, e] =>
    exfalso
    revert h
    show ciStarts ('r' :: 'e' :: 'd' :: []) [c, e] = true → False
    unfold ciStarts
    cases hrc : decide ('r' = c.toLower) <;> cases hre : decide ('e' = e.toLower) <;>
      simp [ciStarts]
  | c :: e :: d :: rest =>
    have h3 : 'r' = c.toLower ∧ 'e' = e.toLower ∧ 'd' = d.toLower ∧ True := by
      revert h
      show ciStarts ('r' :: 'e' :: 'd' :: []) (c :: e :: d :: rest) = true → _
      unfold ciStarts
      simp only [Bool.and_eq_true, decide_eq_true_eq, ciStarts]
      exact fun h => h
    exact ⟨c, e, d, rest, rfl, h3.1.symm, h3.2.1.symm, h3.2.2.1.symm⟩

theorem scanCountAux_cons_zero (step : List Char → Option Nat) (c : Char) (rest : List Char) :
    scanCountAux step 0 (c :: rest) =
      (match step (c :: rest) with
       | some m => 1 + scanCountAux step 0 (rest.drop (m - 1))
       | none => scanCountAux step 0 rest) := by
  cases h : step (c :: rest) with
  | none => simp only [scanCountAux, h]
  | some m =>
    simp only [scanCountAux, h]
    rw [scanCountAux_skip]

theorem scanCountAux_cons_of_some {step : List Char → Option Nat} {c : Char}
    {rest : List Char} {m : Nat} (h : step (c :: rest) = some m) :
    scanCountAux step 0 (c :: rest) = 1 + scanCountAux step 0 (rest.drop (m - 1)) := by
  rw [scanCountAux_cons_zero, h]

theorem scanCountAux_cons_of_none {step : List Char → Option Nat} {c : Char}
    {rest : List Char} (h : step (c :: rest) = none) :
    scanCountAux step 0 (c :: rest) = scanCountAux step 0 rest := by
  rw [scanCountAux_cons_zero, h]

theorem redUsage_decomp_aux :
    ∀ (N : Nat) (l : List Char), l.length ≤ N →
      scanCountAux redStep 0 l = countHash l + scanCountAux redOnlyStep 0 l := by
  intro N
  induction N with
  | zero =>
    intro l hl
    have hnil : l = [] := List.eq_nil_of_length_eq_zero (Nat.le_zero.mp hl)
    subst hnil
    rfl
  | succ N ih =>
    intro l hl
    cases l with
    | nil => rfl
    | cons c rest =>
      by_cases hc : c = '#'
      · subst hc
        have hstep : redStep ('#' :: rest) =
            some (1 + (min 4 (leadingCount 'f' rest) +
              min 2 (leadingCount '0' (rest.drop (min 4 (leadingCount 'f' rest)))))) := by
          simp [redStep]
          omega
        rw [scanCountAux_cons_of_some hstep]
        rw [show 1 + (min 4 (leadingCount 'f' rest) +
              min 2 (leadingCount '0' (rest.drop (min 4 (leadingCount 'f' rest))))) - 1 =
            min 4 (leadingCount 'f' rest) +
              min 2 (leadingCount '0' (rest.drop (min 4 (leadingCount 'f' rest)))) from by omega]
        have hdd : rest.drop
            (min 4 (leadingCount 'f' rest) +
              min 2 (leadingCount '0' (rest.drop (min 4 (leadingCount 'f' rest))))) =
            (rest.drop (min 4 (leadingCount 'f' rest))).drop
              (min 2 (leadingCount '0' (rest.drop (min 4 (leadingCount 'f' rest))))) := by
          rw [List.drop_drop, Nat.add_comm]
        rw [hdd]
        have hlen : ((rest.drop (min 4 (leadingCount 'f' rest))).drop
            (min 2 (leadingCount '0' (rest.drop (min 4 (leadingCount 'f' rest)))))).length ≤ N := by
          rw [List.length_drop, List.length_drop]
          simp only [List.length_cons] at hl
          omega
        rw [ih _ hlen]
        rw [countHash_drop_leading '0' (by decide), countHash_drop_leading 'f' (by decide)]
        rw [countRedScan_drop_leading '0' (by decide), countRedScan_drop_leading 'f' (by decide)]
        rw [scanCountAux_cons_of_none (redOnlyStep_cons_ne '#' rest (by decide))]
        rw [countHash_cons_hash]
        omega
      · by_cases hred : ciStarts "red".data (c :: rest) = true
        · obtain ⟨c', e, d, rest', heq, hcr, her, hdr⟩ := ciStarts_red_shape _ hred
          injection heq with hce hrest
          subst hce
          subst hrest
          have hstep : redStep (c :: e :: d :: rest') = some 3 := by
            simp [redStep, hc, hred]
          have hro : redOnlyStep (c :: e :: d :: rest') = some 3 := by
            simp [redOnlyStep, hred]
          rw [scanCountAux_cons_of_some hstep, scanCountAux_cons_of_some hro]
          have hdrop : (e :: d :: rest').drop (3 - 1) = rest' := rfl
          rw [hdrop]
          have hch : countHash (c :: e :: d :: rest') = countHash rest' := by
            rw [countHash_cons_ne c _ (ne_hash_of_toLower hcr (by decide)),
                countHash_cons_ne e _ (ne_hash_of_toLower her (by decide)),
                countHash_cons_ne d _ (ne_hash_of_toLower hdr (by decide))]
          have hlen : rest'.length ≤ N := by
            simp only [List.length_cons] at hl
            omega
          rw [hch, ih _ hlen]
          omega
        · rw [Bool.not_eq_true] at hred
          have hstep : redStep (c :: rest) = none := by
            simp [redStep, hc, hred]
          have hro : redOnlyStep (c :: rest) = none := by
            simp [redOnlyStep, hred]
          rw [scanCountAux_cons_of_none hstep, scanCountAux_cons_of_none hro,
            countHash_cons_ne c rest hc]
          exact ih rest (by simp only [List.length_cons] at hl; omega)

/-- The red-usage scan counts every `#` plus every occurrence of `red`. -/
theorem redUsage_decomp (l : List Char) :
    redUsageCount l = countHash l + countRed l :=
  redUsage_decomp_aux l.length l le_rfl

/-- C1: for every HTML input, including an absent one and the empty string,
`evaluateAllMetrics` returns five metric results and each score is an integer
(the score type is `ℤ`) between 0 and 100 inclusive. -/
theorem C1_metric_scores_integer_range (html : Option (List Char)) :
    (evaluateAllMetrics html).length = 5 ∧
      ∀ m ∈ evaluateAllMetrics html, 0 ≤ m.score ∧ m.score ≤ 100 :=
  ⟨by simp [evaluateAllMetrics], fun m hm => metricScore_bounds html m hm⟩

/-- Witness for C1 at the empty HTML string and the stress metric. -/
theorem C1_witness :
    0 ≤ (calcStressPoints (some "".data)).score ∧
      (calcStressPoints (some "".data)).score ≤ 100 :=
  (C1_metric_scores_integer_range (some "".data)).2 (calcStressPoints (some "".data))
    (by simp [evaluateAllMetrics])

/-- C3: for every HTML input the readability score is 100 minus the penalty
`2 × (avgWordsPerSentence − 20)` when that average exceeds 20, minus 15 when
headings are zero, minus 10 when the word count is below 50, minus 4 per
small-text hit, minus 4 per low-contrast hit capped at 20 in total, minus 3
per tight-line-height hit, minus 4 per light-weight hit and minus 6 per
wide-block-risk unit, all over the shared typography signals, and the returned
score is this value rounded and clamped to [0,100]. -/
theorem C3_readability_penalty_formula (html : Option (List Char)) :
    (calcReadability html (some (analyzeTypography html))).score =
      clampScore (100
        - (if 20 < (analyzeTypography html).avgWordsPerSentence then
            ((analyzeTypography html).avgWordsPerSentence - 20) * 2 else 0)
        - (if (analyzeTypography html).headings = 0 then 15 else 0)
        - (if (analyzeTypography html).words < 50 then 10 else 0)
        - ((analyzeTypography html).smallTextHits : ℚ) * 4
        - min 20 (((analyzeTypography html).lowContrastHits : ℚ) * 4)
        - ((analyzeTypography html).tightLineHeights : ℚ) * 3
        - ((analyzeTypography html).lightWeightHits : ℚ) * 4
        - ((analyzeTypography html).wideBlockRisk : ℚ) * 6) :=
  calcReadability_score_closed html (analyzeTypography html)

/-- C8: any HTML whose alert-word scan finds exactly the three occurrences
(`error` twice, `urgent` once), with no match of the red-colour pattern and at
most six `<input>` occurrences, scores 85 − 5×3 = 70 on user stress. -/
theorem C8_stress_example (html : List Char) (ha : alertWordsCount html = 3)
    (hr : redUsageCount html = 0) (hd : denseInputsCount html ≤ 6) :
    (calcStressPoints (some html)).score = 70 := by
  rw [calcStressPoints_score_closed]
  have harg : (85 - (alertWordsCount (rawOf (some html)) : ℚ) * 5
      - (redUsageCount (rawOf (some html)) : ℚ) * 3
      - (if 6 < denseInputsCount (rawOf (some html)) then
          ((denseInputsCount (rawOf (some html)) : ℚ) - 6) * 2 else 0)) = ((70 : ℤ) : ℚ) := by
    rw [show rawOf (some html) = html from rfl, ha, hr,
      if_neg (show ¬ 6 < denseInputsCount html by omega)]
    push_cast
    ring
  rw [harg]
  exact clampScore_intCast 70 (by omega) (by omega)

/-- Witness for C8. -/
theorem C8_witness : (calcStressPoints (some "error error urgent".data)).score = 70 :=
  C8_stress_example "error error urgent".data (by decide) (by decide) (by decide)

/-- C10: the red-usage counter equals the number of `#` characters (the
hex-colour alternative `#f{0,2}f{0,2}0{0,2}` matches a bare `#`) plus the
number of `red` occurrences, and the stress score subtracts 3 for each. -/
theorem C10_red_regex_overcount (html : List Char) :
    redUsageCount html = countHash html + countRed html ∧
    (calcStressPoints (some html)).score =
      clampScore (85 - (alertWordsCount html : ℚ) * 5
        - ((countHash html : ℚ) + (countRed html : ℚ)) * 3
        - (if 6 < denseInputsCount html then
            ((denseInputsCount html : ℚ) - 6) * 2 else 0)) := by
  refine ⟨redUsage_decomp html, ?_⟩
  have hcast : (redUsageCount html : ℚ) = (countHash html : ℚ) + (countRed html : ℚ) := by
    rw [redUsage_decomp html]
    push_cast
    ring
  rw [calcStressPoints_score_closed, show rawOf (some html) = html from rfl, hcast]

/-- C4: the visual analysis adapter never lets an exception escape: without a
credential it returns the empty result; on a non-success HTTP response it
returns only the errors entry naming the status; on a transport exception it
returns only the generic unavailable entry.  Totality of the adapter is by
construction of the embedding. -/
theorem C4_greenpt_error_containment (key : String) (parseTail : String → GreenptData)
    (resp : HttpResponse) :
    analyzeWithGreenpt none (Except.ok resp) parseTail = {} ∧
    analyzeWithGreenpt none (Except.error ()) parseTail = {} ∧
    (resp.ok = false → analyzeWithGreenpt (some key) (Except.ok resp) parseTail =
      { errors := some ["Greenpt API returned " ++ toString resp.status] }) ∧
    analyzeWithGreenpt (some key) (Except.error ()) parseTail =
      { errors := some ["Greenpt service unavailable"] } := by
  refine ⟨rfl, rfl, fun hok => ?_, rfl⟩
  simp [analyzeWithGreenpt, greenptTry, hok, Bind.bind, Except.bind, Pure.pure, Except.pure]

/-- Witness for C4 at an HTTP 500 response. -/
theorem C4_witness :
    analyzeWithGreenpt (some "key")
        (Except.ok { status := 500, ok := false, content := Except.ok "" }) (fun _ => {}) =
      { errors := some ["Greenpt API returned " ++ toString (500 : Nat)] } :=
  (C4_greenpt_error_containment "key" (fun _ => {})
    { status := 500, ok := false, content := Except.ok "" }).2.2.1 rfl

/-- C5 counterexample: a request with absent HTML is rejected with the client
error, contradicting the claim that a request with absent HTML is not
rejected. -/
theorem C5_counterexample :
    MetricsRoute.POST none =
      RouteResponse.badRequest "Insufficient HTML supplied for heuristic scoring." := rfl

/-- C5 amended: the metrics route rejects with the client error exactly when
the HTML is absent, empty, or shorter than 20 characters; otherwise it returns
the five metric results. -/
theorem C5_amended_route_rejection (html : Option (List Char)) :
    (MetricsRoute.POST html =
        RouteResponse.badRequest "Insufficient HTML supplied for heuristic scoring." ↔
      (jsTruthyStr html = false ∨ (rawOf html).length < 20)) ∧
    (¬ (jsTruthyStr html = false ∨ (rawOf html).length < 20) →
      MetricsRoute.POST html = RouteResponse.ok (evaluateAllMetrics html) ∧
        (evaluateAllMetrics html).length = 5) := by
  by_cases hc : jsTruthyStr html = false ∨ (rawOf html).length < 20
  · refine ⟨⟨fun _ => hc, fun _ => ?_⟩, fun hn => absurd hc hn⟩
    simp [MetricsRoute.POST, hc]
  · refine ⟨⟨fun h => ?_, fun h => absurd h hc⟩, fun _ => ⟨?_, by simp [evaluateAllMetrics]⟩⟩
    · simp [MetricsRoute.POST, hc] at h
    · simp [MetricsRoute.POST, hc]

/-- Witness for C5 at a 20-character HTML string. -/
theorem C5_witness :
    MetricsRoute.POST (some "aaaaaaaaaaaaaaaaaaaa".data) =
        RouteResponse.ok (evaluateAllMetrics (some "aaaaaaaaaaaaaaaaaaaa".data)) ∧
      (evaluateAllMetrics (some "aaaaaaaaaaaaaaaaaaaa".data)).length = 5 :=
  (C5_amended_route_rejection (some "aaaaaaaaaaaaaaaaaaaa".data)).2 (by decide)

/-- C2: with the credential absent the synthesizer takes the deterministic
fallback for any non-empty metrics list: the overall score is the rounded
arithmetic mean of the metric scores; the top issues are the metrics scoring
below 70, stably sorted ascending by score, truncated to three, tagged high
below 50 and medium otherwise; the recommendations are all metric
recommendation strings flattened in metric-then-recommendation order, titled
`label Improvement`, tagged by the owning metric's score (high below 50,
medium below 70, low otherwise) with effort medium, truncated to eight. -/
theorem C2_fallback_synthesis (input : LLMAnalysisRequest) (hne : input.metrics ≠ [])
    (remote : Except Unit LLMAnalysisResponse) :
    (generateLLMAnalysis none remote input).overallScore =
      JSNum.num ((jsRound (((input.metrics.map MetricResult.score).sum : ℚ) /
        (input.metrics.length : ℚ)) : ℤ) : ℚ) ∧
    (generateLLMAnalysis none remote input).topIssues =
      (((input.metrics.filter (fun m => m.score < 70)).mergeSort
          (fun a b => decide (a.score ≤ b.score))).take 3).map
        (fun m => { metric := m.label, issue := m.summary,
                    severity := if m.score < (50 : ℤ) then "high" else "medium" }) ∧
    (generateLLMAnalysis none remote input).recommendations =
      (input.metrics.flatMap (fun m =>
        m.recommendations.map (fun rec =>
          { title := m.label ++ " Improvement", description := rec,
            impact := if m.score < 50 then "high"
              else if m.score < 70 then "medium" else "low",
            effort := "medium" }))).take 8 := by
  refine ⟨?_, rfl, rfl⟩
  show (generateFallbackAnalysis input).overallScore = _
  have hlen : (input.metrics.length : ℚ) ≠ 0 := by
    have h0 : input.metrics.length ≠ 0 := fun h => hne (List.length_eq_zero.mp h)
    exact_mod_cast h0
  simp only [generateFallbackAnalysis]
  rw [foldl_score_sum, jsDiv, if_neg hlen]
  simp [jsRoundNum]

/-- Witness for C2 at the metric list of the empty analysis. -/
theorem C2_witness :
    (generateLLMAnalysis none (Except.error ())
        { metrics := evaluateAllMetrics none }).overallScore =
      JSNum.num ((jsRound ((((evaluateAllMetrics none).map MetricResult.score).sum : ℚ) /
        ((evaluateAllMetrics none).length : ℚ)) : ℤ) : ℚ) ∧
    (generateLLMAnalysis none (Except.error ())
        { metrics := evaluateAllMetrics none }).topIssues =
      ((((evaluateAllMetrics none).filter (fun m => m.score < 70)).mergeSort
          (fun a b => decide (a.score ≤ b.score))).take 3).map
        (fun m => { metric := m.label, issue := m.summary,
                    severity := if m.score < (50 : ℤ) then "high" else "medium" }) ∧
    (generateLLMAnalysis none (Except.error ())
        { metrics := evaluateAllMetrics none }).recommendations =
      ((evaluateAllMetrics none).flatMap (fun m =>
        m.recommendations.map (fun rec =>
          { title := m.label ++ " Improvement", description := rec,
            impact := if m.score < 50 then "high"
              else if m.score < 70 then "medium" else "low",
            effort := "medium" }))).take 8 :=
  C2_fallback_synthesis { metrics := evaluateAllMetrics none }
    (by simp [evaluateAllMetrics]) (Except.error ())

/-- C9: invoking the full-analysis route without HTML passes an empty metrics
list to the synthesizer; on the empty list the fallback overall score is the
division 0/0, that is NaN, not an integer in [0,100]; on every metrics list
actually produced by the engine (always non-empty) the fallback overall score
is an integer in [0,100]. -/
theorem C9_empty_metrics_nan :
    AnalyzeRoute.heuristicMetrics none = [] ∧
    (generateFallbackAnalysis { metrics := [] }).overallScore = JSNum.nan ∧
    ∀ html : Option (List Char),
      ∃ n : ℤ, (generateFallbackAnalysis { metrics := evaluateAllMetrics html }).overallScore =
          JSNum.num ((n : ℤ) : ℚ) ∧ 0 ≤ n ∧ n ≤ 100 := by
  refine ⟨rfl, by simp [generateFallbackAnalysis, jsDiv, jsRoundNum], fun html => ?_⟩
  have hbounds : 0 ≤ ((evaluateAllMetrics html).map MetricResult.score).sum ∧
      ((evaluateAllMetrics html).map MetricResult.score).sum ≤
        100 * ((evaluateAllMetrics html).map MetricResult.score).length := by
    refine int_sum_bounds _ (fun x hx => ?_)
    obtain ⟨m, hm, hxe⟩ := List.mem_map.mp hx
    rw [← hxe]
    exact metricScore_bounds html m hm
  have hlen5 : ((evaluateAllMetrics html).map MetricResult.score).length = 5 := by
    simp [evaluateAllMetrics]
  rw [hlen5] at hbounds
  refine ⟨jsRound ((((evaluateAllMetrics html).map MetricResult.score).sum : ℚ) / 5), ?_, ?_, ?_⟩
  · simp only [generateFallbackAnalysis]
    rw [foldl_score_sum]
    rw [show ((evaluateAllMetrics html).length : ℚ) = 5 by
      rw [show (evaluateAllMetrics html).length = 5 by simp [evaluateAllMetrics]]
      norm_num]
    rw [jsDiv, if_neg (by norm_num : (5 : ℚ) ≠ 0)]
    simp [jsRoundNum]
  · apply jsRound_nonneg
    have h0 : (0 : ℚ) ≤ (((evaluateAllMetrics html).map MetricResult.score).sum : ℚ) := by
      exact_mod_cast hbounds.1
    positivity
  · apply jsRound_le_hundred
    have h5 : ((((evaluateAllMetrics html).map MetricResult.score).sum : ℚ)) ≤ 500 := by
      exact_mod_cast hbounds.2
    linarith

theorem clampScore_eq_of (v : ℚ) (n : ℤ) (h : v = (n : ℚ)) (h0 : 0 ≤ n) (h1 : n ≤ 100) :
    clampScore v = n := by
  rw [h]
  exact clampScore_intCast n h0 h1

/-- C7 counterexample: `<input><input><input>` has exactly three `<input>`
tags, no progress words and no headings, and its memory score is 95, but its
readability score is 75 (the word count 0 is below 50, adding a −10 penalty to
the −15 for zero headings), not 85. -/
theorem C7_counterexample :
    (denseInputsCount "<input><input><input>".data = 3 ∧
     stepsCount "<input><input><input>".data = 0 ∧
     headingsCount "<input><input><input>".data = 0) ∧
    (calcReadability (some "<input><input><input>".data)
        (some (analyzeTypography (some "<input><input><input>".data)))).score = 75 ∧
    ¬ ((calcMemory (some "<input><input><input>".data)).score = 95 ∧
       (calcReadability (some "<input><input><input>".data)
         (some (analyzeTypography (some "<input><input><input>".data)))).score = 85) := by
  have h75 : (calcReadability (some "<input><input><input>".data)
      (some (analyzeTypography (some "<input><input><input>".data)))).score = 75 := by
    rw [calcReadability_score_closed, analyzeTypography_avgWps]
    rw [show (analyzeTypography (some "<input><input><input>".data)).headings = 0 from by decide,
      show (analyzeTypography (some "<input><input><input>".data)).words = 0 from by decide,
      show (analyzeTypography (some "<input><input><input>".data)).sentences = 1 from by decide,
      show (analyzeTypography (some "<input><input><input>".data)).smallTextHits = 0 from by
        decide,
      show (analyzeTypography (some "<input><input><input>".data)).lowContrastHits = 0 from by
        decide,
      show (analyzeTypography (some "<input><input><input>".data)).tightLineHeights = 0 from by
        decide,
      show (analyzeTypography (some "<input><input><input>".data)).lightWeightHits = 0 from by
        decide,
      show (analyzeTypography (some "<input><input><input>".data)).wideBlockRisk = 0 from by
        decide]
    refine clampScore_eq_of _ 75 ?_ (by omega) (by omega)
    norm_num [min_def]
  refine ⟨⟨by decide, by decide, by decide⟩, h75, fun hcl => ?_⟩
  exact (by omega : (75 : ℤ) ≠ 85) (h75.symm.trans hcl.2)

/-- C7 amended: for HTML with exactly three form fields
(input/select/textarea, so in particular three `<input>` tags and no other
fields), no progress/step/breadcrumb words and no headings, the memory score
is 95; and the readability score is 85 provided additionally that the shared
signals show at least 50 words, an average of at most 20 words per sentence,
and no small-text, low-contrast, tight-line-height, light-weight or
wide-block penalties. -/
theorem C7_amended_example_scores (html : List Char)
    (hf : fieldsCount html = 3) (hs : stepsCount html = 0)
    (hh : (analyzeTypography (some html)).headings = 0)
    (hw : 50 ≤ (analyzeTypography (some html)).words)
    (havg : (analyzeTypography (some html)).avgWordsPerSentence ≤ 20)
    (hsm : (analyzeTypography (some html)).smallTextHits = 0)
    (hlc : (analyzeTypography (some html)).lowContrastHits = 0)
    (htl : (analyzeTypography (some html)).tightLineHeights = 0)
    (hlw : (analyzeTypography (some html)).lightWeightHits = 0)
    (hwb : (analyzeTypography (some html)).wideBlockRisk = 0) :
    (calcMemory (some html)).score = 95 ∧
    (calcReadability (some html) (some (analyzeTypography (some html)))).score = 85 := by
  constructor
  · rw [calcMemory_score_closed, show rawOf (some html) = html from rfl, hf]
    refine clampScore_eq_of _ 95 ?_ (by omega) (by omega)
    rw [if_neg (by omega : ¬ (6 : ℕ) < 3), if_neg (by omega : ¬ (stepsCount html = 0 ∧ 4 < 3))]
    norm_num
  · rw [calcReadability_score_closed]
    rw [hh, hsm, hlc, htl, hlw, hwb]
    rw [if_neg (not_lt.mpr havg), if_pos rfl,
      if_neg (by omega : ¬ (analyzeTypography (some html)).words < 50)]
    refine clampScore_eq_of _ 85 ?_ (by omega) (by omega)
    norm_num [min_def]

/-- Witness for the amended C7 at a concrete three-field form with 52 words in
13 sentences. -/
theorem C7_witness :
    (calcMemory (some sampleFormHtml.data)).score = 95 ∧
    (calcReadability (some sampleFormHtml.data)
        (some (analyzeTypography (some sampleFormHtml.data)))).score = 85 :=
  C7_amended_example_scores sampleFormHtml.data (by decide) (by decide) (by decide)
    (by decide)
    (by rw [analyzeTypography_avgWps,
          show (analyzeTypography (some sampleFormHtml.data)).sentences = 13 from by decide,
          show (analyzeTypography (some sampleFormHtml.data)).words = 52 from by decide]
        norm_num)
    (by decide) (by decide) (by decide) (by decide) (by decide)

/-! Lemmas for the shared-word-count consistency scenario (C6). -/

theorem scanReplaceAux_skip (step : List Char → Option Nat) :
    ∀ (l : List Char) (k : Nat), scanReplaceAux step k l = scanReplaceAux step 0 (l.drop k) := by
  intro l
  induction l with
  | nil => intro k; cases k <;> rfl
  | cons c rest ih =>
    intro k
    cases k with
    | zero => rfl
    | succ k => simpa [scanReplaceAux] using ih k

theorem scanReplaceAux_cons_zero (step : List Char → Option Nat) (c : Char) (rest : List Char) :
    scanReplaceAux step 0 (c :: rest) =
      (match step (c :: rest) with
       | some m => ' ' :: scanReplaceAux step 0 (rest.drop (m - 1))
       | none => c :: scanReplaceAux step 0 rest) := by
  cases h : step (c :: rest) with
  | none => simp only [scanReplaceAux, h]
  | some m =>
    simp only [scanReplaceAux, h]
    rw [scanReplaceAux_skip]

theorem scanReplaceAux_cons_of_some {step : List Char → Option Nat} {c : Char}
    {rest : List Char} {m : Nat} (h : step (c :: rest) = some m) :
    scanReplaceAux step 0 (c :: rest) = ' ' :: scanReplaceAux step 0 (rest.drop (m - 1)) := by
  rw [scanReplaceAux_cons_zero, h]

theorem scanReplaceAux_cons_of_none {step : List Char → Option Nat} {c : Char}
    {rest : List Char} (h : step (c :: rest) = none) :
    scanReplaceAux step 0 (c :: rest) = c :: scanReplaceAux step 0 rest := by
  rw [scanReplaceAux_cons_zero, h]

theorem ciStarts_append_mono (pat : List Char) :
    ∀ (l t : List Char), ciStarts pat l = true → ciStarts pat (l ++ t) = true := by
  induction pat with
  | nil => intro l t _; rfl
  | cons p ps ih =>
    intro l t h
    cases l with
    | nil => exact absurd h (by simp [ciStarts])
    | cons c cs =>
      rw [List.cons_append]
      rw [show ciStarts (p :: ps) (c :: (cs ++ t)) =
          (decide (p = c.toLower) && ciStarts ps (cs ++ t)) from rfl]
      rw [show ciStarts (p :: ps) (c :: cs) =
          (decide (p = c.toLower) && ciStarts ps cs) from rfl] at h
      simp only [Bool.and_eq_true] at h
      obtain ⟨h1, h2⟩ := h
      rw [h1, ih cs t h2]
      rfl

theorem hasOccCI_append_left (pat l t : List Char)
    (h : hasOccCI pat (l ++ t) = false) : hasOccCI pat l = false := by
  induction l with
  | nil => rfl
  | cons c rest ih =>
    rw [List.cons_append] at h
    rw [show hasOccCI pat (c :: (rest ++ t)) =
        (ciStarts pat (c :: (rest ++ t)) || hasOccCI pat (rest ++ t)) from rfl] at h
    rcases Bool.or_eq_false_iff.mp h with ⟨h1, h2⟩
    rw [show hasOccCI pat (c :: rest) =
      (ciStarts pat (c :: rest) || hasOccCI pat rest) from rfl]
    rw [ih h2]
    have hcs : ciStarts pat (c :: rest) = false := by
      cases hcc : ciStarts pat (c :: rest) with
      | false => rfl
      | true =>
        have := ciStarts_append_mono pat (c :: rest) t hcc
        rw [List.cons_append] at this
        rw [this] at h1
        exact h1
    rw [hcs]
    rfl

theorem stripBlocks_id (opn cls : List Char) :
    ∀ l : List Char, hasOccCI opn l = false →
      scanReplaceAux (blockStep opn cls) 0 l = l := by
  intro l
  induction l with
  | nil => intro _; rfl
  | cons c rest ih =>
    intro h
    rw [show hasOccCI opn (c :: rest) =
      (ciStarts opn (c :: rest) || hasOccCI opn rest) from rfl] at h
    rcases Bool.or_eq_false_iff.mp h with ⟨h1, h2⟩
    rw [scanReplaceAux_cons_of_none (by simp [blockStep, h1]), ih h2]

theorem findCharLen_contains (ch : Char) :
    ∀ l : List Char, l.contains ch = true →
      ∃ k, findCharLen ch l = some k ∧ k ≤ l.length := by
  intro l
  induction l with
  | nil => intro h; exact absurd h (by simp)
  | cons c rest ih =>
    intro h
    by_cases hc : c = ch
    · exact ⟨1, by simp [findCharLen, hc], by simp⟩
    · have hrest : rest.contains ch = true := by
        rw [List.contains_cons] at h
        simp only [Bool.or_eq_true] at h
        rcases h with h1 | h1
        · exact absurd (beq_iff_eq.mp h1).symm hc
        · exact h1
      obtain ⟨k, hk, hkle⟩ := ih hrest
      exact ⟨k + 1, by simp [findCharLen, hc, hk], by simp; omega⟩

theorem findCharLen_append_of_some (ch : Char) :
    ∀ (l s : List Char) (k : Nat), findCharLen ch l = some k →
      findCharLen ch (l ++ s) = some k := by
  intro l
  induction l with
  | nil => intro s k h; exact absurd h (by simp [findCharLen])
  | cons c rest ih =>
    intro s k h
    by_cases hc : c = ch
    · simp only [findCharLen, if_pos hc] at h
      simp only [List.cons_append, findCharLen, if_pos hc]
      exact h
    · simp only [findCharLen, if_neg hc] at h
      cases hfr : findCharLen ch rest with
      | none => rw [hfr] at h; simp at h
      | some k' =>
        rw [hfr] at h
        simp only [Option.map_some'] at h
        simp only [List.cons_append, findCharLen, if_neg hc, List.append_eq]
        rw [ih s k' hfr]
        simpa using h

theorem ltClosed_tail {c : Char} {rest : List Char} (h : ltClosed (c :: rest) = true) :
    ltClosed rest = true := by
  rw [show ltClosed (c :: rest) =
    ((decide (c ≠ '<') || rest.contains '>') && ltClosed rest) from rfl] at h
  simp only [Bool.and_eq_true] at h
  exact h.2

theorem ltClosed_head {rest : List Char} (h : ltClosed ('<' :: rest) = true) :
    rest.contains '>' = true := by
  rw [show ltClosed ('<' :: rest) =
    ((decide ('<' ≠ '<') || rest.contains '>') && ltClosed rest) from rfl] at h
  simp only [Bool.and_eq_true, Bool.or_eq_true] at h
  rcases h.1 with h1 | h1
  · exact absurd (of_decide_eq_true h1) (by simp)
  · exact h1

theorem ltClosed_drop : ∀ (l : List Char), ltClosed l = true →
    ∀ k, ltClosed (l.drop k) = true := by
  intro l
  induction l with
  | nil => intro _ k; simp [ltClosed]
  | cons c rest ih =>
    intro h k
    cases k with
    | zero => exact h
    | succ k => exact ih (ltClosed_tail h) k

theorem tagStep_cons_ne (c : Char) (l : List Char) (hc : c ≠ '<') :
    tagStep (c :: l) = none := by
  cases l with
  | nil => rfl
  | cons d rest => simp [tagStep, hc]

theorem tagStep_lt_gt (xs : List Char) : tagStep ('<' :: '>' :: xs) = none := by
  simp [tagStep]

theorem stripAngleTags_append_aux (t : List Char) :
    ∀ (N : Nat) (l : List Char), l.length ≤ N → ltClosed l = true → t ≠ [] →
      scanReplaceAux tagStep 0 (l ++ t) =
        scanReplaceAux tagStep 0 l ++ scanReplaceAux tagStep 0 t := by
  intro N
  induction N with
  | zero =>
    intro l hl _ _
    have hnil : l = [] := List.eq_nil_of_length_eq_zero (Nat.le_zero.mp hl)
    subst hnil
    rfl
  | succ N ih =>
    intro l hl hlt htne
    cases l with
    | nil => rfl
    | cons c rest =>
      by_cases hc : c = '<'
      · subst hc
        cases rest with
        | nil =>
          exfalso
          rw [show ltClosed ['<'] =
            ((decide ('<' ≠ '<') || List.contains [] '>') && ltClosed []) from rfl] at hlt
          simp at hlt
        | cons d r2 =>
          by_cases hd : d = '>'
          · subst hd
            rw [List.cons_append, List.cons_append]
            rw [scanReplaceAux_cons_of_none (tagStep_lt_gt (r2 ++ t)),
                scanReplaceAux_cons_of_none (tagStep_lt_gt r2)]
            rw [← List.cons_append]
            rw [ih ('>' :: r2) (by simp at hl ⊢; omega) (ltClosed_tail hlt) htne]
            rfl
          · have hcont : (d :: r2).contains '>' = true := ltClosed_head hlt
            obtain ⟨k, hk, hkle⟩ := findCharLen_contains '>' (d :: r2) hcont
            have hstep1 : tagStep ('<' :: (d :: r2) ++ t) = some (k + 1) := by
              rw [show ('<' :: (d :: r2) ++ t) = '<' :: d :: (r2 ++ t) from rfl]
              simp only [tagStep, if_pos rfl, if_neg hd]
              rw [show (d :: (r2 ++ t)) = ((d :: r2) ++ t) from rfl,
                findCharLen_append_of_some '>' (d :: r2) t k hk]
              rfl
            have hstep2 : tagStep ('<' :: d :: r2) = some (k + 1) := by
              simp only [tagStep, if_pos rfl, if_neg hd, hk]
              rfl
            rw [show ('<' :: d :: r2) ++ t = '<' :: ((d :: r2) ++ t) from rfl]
            rw [scanReplaceAux_cons_of_some (by
              rw [show '<' :: ((d :: r2) ++ t) = '<' :: (d :: r2) ++ t from rfl]
              exact hstep1), scanReplaceAux_cons_of_some hstep2]
            rw [show k + 1 - 1 = k from rfl]
            rw [List.drop_append_eq_append_drop, show k - (d :: r2).length = 0 from by omega,
              List.drop_zero]
            rw [ih ((d :: r2).drop k) (by
                rw [List.length_drop]
                simp only [List.length_cons] at hl ⊢
                omega)
              (ltClosed_drop _ (ltClosed_tail hlt) k) htne]
            rfl
      · rw [List.cons_append]
        have hstep1 : tagStep (c :: (rest ++ t)) = none := tagStep_cons_ne c (rest ++ t) hc
        have hstep2 : tagStep (c :: rest) = none := tagStep_cons_ne c rest hc
        rw [scanReplaceAux_cons_of_none hstep1, scanReplaceAux_cons_of_none hstep2]
        rw [ih rest (by simp at hl; omega) (ltClosed_tail hlt) htne]
        rfl

theorem stripAngleTags_append (l t : List Char) (hlt : ltClosed l = true) (ht : t ≠ []) :
    stripAngleTags (l ++ t) = stripAngleTags l ++ stripAngleTags t :=
  stripAngleTags_append_aux t l.length l le_rfl hlt ht

theorem dropWhileApp {α : Type} (p : α → Bool) :
    ∀ (a b : List α), List.dropWhile p (a ++ b) =
      if (List.dropWhile p a).isEmpty then List.dropWhile p b
      else List.dropWhile p a ++ b := by
  intro a
  induction a with
  | nil => intro b; simp
  | cons c a' ih =>
    intro b
    by_cases hp : p c = true
    · rw [List.cons_append, List.dropWhile_cons, List.dropWhile_cons,
        if_pos hp, if_pos hp, ih b]
    · rw [List.cons_append, List.dropWhile_cons, List.dropWhile_cons,
        if_neg hp, if_neg hp]
      simp

theorem rtrim_cons_not_ws (c : Char) (z : List Char) (hc : isWs c = false) :
    rtrim (c :: z) = c :: rtrim z := by
  unfold rtrim
  rw [List.reverse_cons, dropWhileApp]
  by_cases he : List.dropWhile isWs z.reverse = []
  · rw [if_pos (by simp [he])]
    simp [List.dropWhile_cons, hc, he]
  · rw [if_neg (by simp [he]), List.reverse_append]
    simp

theorem rtrim_cons_ne_nil (c : Char) (z : List Char) (hz : rtrim z ≠ []) :
    rtrim (c :: z) = c :: rtrim z := by
  unfold rtrim at hz ⊢
  have hne : List.dropWhile isWs z.reverse ≠ [] := fun h => hz (by simp [h])
  rw [List.reverse_cons, dropWhileApp, if_neg (by simpa using hne), List.reverse_append]
  simp

theorem rtrim_append_sp (z : List Char) : rtrim (z ++ [' ']) = rtrim z := by
  unfold rtrim
  rw [List.reverse_append, show List.reverse [' '] = [' '] from rfl, List.singleton_append,
    List.dropWhile_cons, if_pos (by decide : isWs ' ' = true)]

theorem rtrim_idem (z : List Char) : rtrim (rtrim z) = rtrim z := by
  unfold rtrim
  rw [List.reverse_reverse, List.dropWhile_idempotent]

theorem wsRunLen_le (l : List Char) : wsRunLen l ≤ l.length := by
  induction l with
  | nil => simp [wsRunLen]
  | cons c rest ih =>
    by_cases hc : isWs c = true
    · simp only [wsRunLen, hc, if_true, List.length_cons]
      omega
    · simp only [wsRunLen, hc]
      simp at hc
      simp [hc]

theorem wsRunLen_append_lt (l s : List Char) (h : wsRunLen l < l.length) :
    wsRunLen (l ++ s) = wsRunLen l := by
  induction l with
  | nil => simp [wsRunLen] at h
  | cons c rest ih =>
    by_cases hc : isWs c = true
    · rw [List.cons_append]
      rw [show wsRunLen (c :: (rest ++ s)) = wsRunLen (rest ++ s) + 1 from by
        simp [wsRunLen, hc]]
      rw [show wsRunLen (c :: rest) = wsRunLen rest + 1 from by simp [wsRunLen, hc]]
      rw [show wsRunLen (c :: rest) = wsRunLen rest + 1 from by simp [wsRunLen, hc]] at h
      simp only [List.length_cons] at h
      rw [ih (by omega)]
    · rw [List.cons_append]
      rw [show wsRunLen (c :: (rest ++ s)) = 0 from by simp [wsRunLen, hc]]
      rw [show wsRunLen (c :: rest) = 0 from by simp [wsRunLen, hc]]

theorem wsRunLen_append_all (l s : List Char) (h : wsRunLen l = l.length) :
    wsRunLen (l ++ s) = l.length + wsRunLen s := by
  induction l with
  | nil => simp
  | cons c rest ih =>
    by_cases hc : isWs c = true
    · rw [List.cons_append]
      rw [show wsRunLen (c :: (rest ++ s)) = wsRunLen (rest ++ s) + 1 from by
        simp [wsRunLen, hc]]
      rw [show wsRunLen (c :: rest) = wsRunLen rest + 1 from by simp [wsRunLen, hc]] at h
      simp only [List.length_cons] at h ⊢
      rw [ih (by omega)]
      omega
    · exfalso
      rw [show wsRunLen (c :: rest) = 0 from by simp [wsRunLen, hc]] at h
      simp at h

theorem wsRun_drop : ∀ (l : List Char), wsRunLen l < l.length →
    ∃ d z', l.drop (wsRunLen l) = d :: z' ∧ isWs d = false := by
  intro l
  induction l with
  | nil => intro h; simp [wsRunLen] at h
  | cons c rest ih =>
    intro h
    by_cases hc : isWs c = true
    · rw [show wsRunLen (c :: rest) = wsRunLen rest + 1 from by simp [wsRunLen, hc]] at h ⊢
      simp only [List.length_cons] at h
      rw [List.drop_succ_cons]
      exact ih (by omega)
    · rw [show wsRunLen (c :: rest) = 0 from by simp [wsRunLen, hc]]
      exact ⟨c, rest, rfl, by simpa using hc⟩

theorem wsStep_cons_ws (c : Char) (rest : List Char) (hc : isWs c = true) :
    wsStep (c :: rest) = some (wsRunLen (c :: rest)) := by
  simp [wsStep, hc]

theorem wsStep_cons_not_ws (c : Char) (rest : List Char) (hc : isWs c = false) :
    wsStep (c :: rest) = none := by
  simp [wsStep, hc]

theorem collapse_head_not_ws (d : Char) (z : List Char) (hd : isWs d = false) :
    collapseWs (d :: z) = d :: collapseWs z :=
  scanReplaceAux_cons_of_none (wsStep_cons_not_ws d z hd)

theorem collapse_append_sp_aux :
    ∀ (N : Nat) (x : List Char), x.length ≤ N →
      collapseWs (x ++ [' ', ' ']) = rtrim (collapseWs x) ++ [' '] := by
  intro N
  induction N with
  | zero =>
    intro x hx
    have hnil : x = [] := List.eq_nil_of_length_eq_zero (Nat.le_zero.mp hx)
    subst hnil
    decide
  | succ N ih =>
    intro x hx
    cases x with
    | nil => decide
    | cons c rest =>
      by_cases hc : isWs c = true
      · by_cases hall : wsRunLen (c :: rest) = (c :: rest).length
        · have hstep1 : wsStep ((c :: rest) ++ [' ', ' ']) =
              some ((c :: rest).length + 2) := by
            rw [show (c :: rest) ++ [' ', ' '] = c :: (rest ++ [' ', ' ']) from rfl]
            rw [wsStep_cons_ws c _ hc]
            rw [show (c :: (rest ++ [' ', ' '])) = ((c :: rest) ++ [' ', ' ']) from rfl]
            rw [wsRunLen_append_all _ _ hall]
            rfl
          have hstep2 : wsStep (c :: rest) = some (wsRunLen (c :: rest)) :=
            wsStep_cons_ws c rest hc
          unfold collapseWs
          rw [show (c :: rest) ++ [' ', ' '] = c :: (rest ++ [' ', ' ']) from rfl]
          rw [scanReplaceAux_cons_of_some (by
            rw [show c :: (rest ++ [' ', ' ']) = ((c :: rest) ++ [' ', ' ']) from rfl]
            exact hstep1)]
          rw [scanReplaceAux_cons_of_some hstep2]
          rw [List.drop_eq_nil_of_le (by
            simp only [List.length_append, List.length_cons]
            simp)]
          rw [List.drop_eq_nil_of_le (by
            simp only [List.length_cons] at hall ⊢
            have := wsRunLen_le rest
            omega)]
          decide
        · have hlt : wsRunLen (c :: rest) < (c :: rest).length :=
            lt_of_le_of_ne (wsRunLen_le _) hall
          have hstep1 : wsStep ((c :: rest) ++ [' ', ' ']) =
              some (wsRunLen (c :: rest)) := by
            rw [show (c :: rest) ++ [' ', ' '] = c :: (rest ++ [' ', ' ']) from rfl]
            rw [wsStep_cons_ws c _ hc]
            rw [show (c :: (rest ++ [' ', ' '])) = ((c :: rest) ++ [' ', ' ']) from rfl]
            rw [wsRunLen_append_lt _ _ hlt]
          have hpos : 1 ≤ wsRunLen (c :: rest) := by
            simp [wsRunLen, hc]
          obtain ⟨d, z', hdz, hd⟩ := wsRun_drop (c :: rest) hlt
          have hdz' : rest.drop (wsRunLen (c :: rest) - 1) = d :: z' := by
            rw [show wsRunLen (c :: rest) = (wsRunLen (c :: rest) - 1) + 1 from by omega,
              List.drop_succ_cons] at hdz
            exact hdz
          unfold collapseWs
          rw [show (c :: rest) ++ [' ', ' '] = c :: (rest ++ [' ', ' ']) from rfl]
          rw [scanReplaceAux_cons_of_some (by
            rw [show c :: (rest ++ [' ', ' ']) = ((c :: rest) ++ [' ', ' ']) from rfl]
            exact hstep1)]
          rw [scanReplaceAux_cons_of_some (wsStep_cons_ws c rest hc)]
          rw [List.drop_append_eq_append_drop,
            show wsRunLen (c :: rest) - 1 - rest.length = 0 from by
              simp only [List.length_cons] at hlt
              omega,
            List.drop_zero]
          rw [show scanReplaceAux wsStep 0 (rest.drop (wsRunLen (c :: rest) - 1) ++
              [' ', ' ']) = collapseWs (rest.drop (wsRunLen (c :: rest) - 1) ++ [' ', ' '])
            from rfl]
          rw [ih _ (by
            rw [List.length_drop]
            simp only [List.length_cons] at hx
            omega)]
          have hztail : rtrim (collapseWs (rest.drop (wsRunLen (c :: rest) - 1))) ≠ [] := by
            rw [hdz', collapse_head_not_ws d z' hd, rtrim_cons_not_ws d _ hd]
            simp
          rw [show scanReplaceAux wsStep 0 (rest.drop (wsRunLen (c :: rest) - 1)) =
            collapseWs (rest.drop (wsRunLen (c :: rest) - 1)) from rfl]
          rw [rtrim_cons_ne_nil ' ' _ (by
            rw [hdz', collapse_head_not_ws d z' hd, rtrim_cons_not_ws d _ hd]
            simp)]
          rfl
      · have hcf : isWs c = false := by simpa using hc
        unfold collapseWs
        rw [show (c :: rest) ++ [' ', ' '] = c :: (rest ++ [' ', ' ']) from rfl]
        rw [scanReplaceAux_cons_of_none (wsStep_cons_not_ws c _ hcf)]
        rw [scanReplaceAux_cons_of_none (wsStep_cons_not_ws c rest hcf)]
        rw [show scanReplaceAux wsStep 0 (rest ++ [' ', ' ']) =
          collapseWs (rest ++ [' ', ' ']) from rfl]
        rw [ih rest (by simp only [List.length_cons] at hx; omega)]
        rw [rtrim_cons_not_ws c _ hcf]
        rfl

theorem trim_collapse_append (x : List Char) :
    trimWs (collapseWs (x ++ [' ', ' '])) = trimWs (collapseWs x) := by
  unfold trimWs
  rw [collapse_append_sp_aux x.length x le_rfl, rtrim_append_sp, rtrim_idem]

theorem stripScripts_id (l : List Char) (h : hasOccCI "<script".data l = false) :
    stripScripts l = l :=
  stripBlocks_id _ _ l h

theorem stripStyles_id (l : List Char) (h : hasOccCI "<style".data l = false) :
    stripStyles l = l :=
  stripBlocks_id _ _ l h

/-- Appending `<button></button>` to markup whose script/style openers are
absent and whose every `<` is followed by a later `>` leaves the shared word
count unchanged. -/
theorem words_append_button (html : List Char)
    (hscript : hasOccCI "<script".data (html ++ buttonSuffix) = false)
    (hstyle : hasOccCI "<style".data (html ++ buttonSuffix) = false)
    (hlt : ltClosed html = true) :
    (analyzeTypography (some (html ++ buttonSuffix))).words =
      (analyzeTypography (some html)).words := by
  show getWordCount (stripTags (some (html ++ buttonSuffix))) =
    getWordCount (stripTags (some html))
  unfold stripTags
  rw [show rawOf (some (html ++ buttonSuffix)) = html ++ buttonSuffix from rfl,
    show rawOf (some html) = html from rfl]
  rw [stripScripts_id _ hscript, stripStyles_id _ hstyle,
    stripScripts_id _ (hasOccCI_append_left _ _ _ hscript),
    stripStyles_id _ (hasOccCI_append_left _ _ _ hstyle)]
  rw [stripAngleTags_append html buttonSuffix hlt (by decide)]
  rw [show stripAngleTags buttonSuffix = [' ', ' '] from by decide]
  exact congrArg getWordCount (trim_collapse_append (stripAngleTags html))

/-- C6 counterexample: for the malformed markup `word <div foo` (an unclosed
`<`), appending `<button></button>` changes the word count reported in the
readability evidence from 3 to 1, because the appended `>` lets the tag
pattern swallow `<div foo<button>`. -/
theorem C6_counterexample :
    evidenceWords ((calcReadability (some ("word <div foo".data ++ buttonSuffix))
        (some (analyzeTypography (some ("word <div foo".data ++ buttonSuffix))))).evidence) =
      some 1 ∧
    evidenceWords ((calcReadability (some "word <div foo".data)
        (some (analyzeTypography (some "word <div foo".data)))).evidence) = some 3 ∧
    (1 : Nat) ≠ 3 :=
  ⟨by decide, by decide, by decide⟩

/-- C6 amended: appending `<button></button>` leaves the word count reported
in the readability evidence unchanged provided the markup (with the button
appended) contains no script or style opener and every `<` of the original
markup is followed by a later `>`; and the word count in readability's
evidence, cognitive-load's words-per-paragraph average and empathy's
typography bonus are all read from the single shared typography computation
of `evaluateAllMetrics`. -/
theorem C6_amended_shared_word_count (html : List Char)
    (hscript : hasOccCI "<script".data (html ++ buttonSuffix) = false)
    (hstyle : hasOccCI "<style".data (html ++ buttonSuffix) = false)
    (hlt : ltClosed html = true) :
    evidenceWords ((calcReadability (some (html ++ buttonSuffix))
        (some (analyzeTypography (some (html ++ buttonSuffix))))).evidence) =
      evidenceWords ((calcReadability (some html)
        (some (analyzeTypography (some html)))).evidence) ∧
    (∀ h' : Option (List Char),
      evaluateAllMetrics h' =
        [calcReadability h' (some (analyzeTypography h')),
         calcCognitiveLoad h' (some (analyzeTypography h')),
         calcStressPoints h', calcMemory h',
         calcEmpathy h' (some (analyzeTypography h'))] ∧
      evidenceWords ((calcReadability h' (some (analyzeTypography h'))).evidence) =
        some ((analyzeTypography h').words) ∧
      evidenceAvgWpp ((calcCognitiveLoad h' (some (analyzeTypography h'))).evidence) =
        some (toFixed1 ((analyzeTypography h').avgWordsPerParagraph)) ∧
      evidenceCalmBonus ((calcEmpathy h' (some (analyzeTypography h'))).evidence) =
        some (decide ((analyzeTypography h').smallTextHits = 0 ∧
          (analyzeTypography h').lowContrastHits = 0))) := by
  refine ⟨?_, fun h' => ⟨rfl, rfl, rfl, rfl⟩⟩
  show some ((analyzeTypography (some (html ++ buttonSuffix))).words) =
    some ((analyzeTypography (some html)).words)
  exact congrArg some (words_append_button html hscript hstyle hlt)

/-- Witness for the amended C6 at a well-formed paragraph. -/
theorem C6_witness :
    evidenceWords ((calcReadability
        (some ("<p>hello there friend</p>".data ++ buttonSuffix))
        (some (analyzeTypography
          (some ("<p>hello there friend</p>".data ++ buttonSuffix))))).evidence) =
      evidenceWords ((calcReadability (some "<p>hello there friend</p>".data)
        (some (analyzeTypography (some "<p>hello there friend</p>".data)))).evidence) :=
  (C6_amended_shared_word_count "<p>hello there friend</p>".data
    (by decide) (by decide) (by decide)).1
